import Mathlib

/-!
Verification of the conversational context manager
(`src/service_layer/agents/message_manager.py`).

The Python class `MessageManager` keeps a bounded, prioritized conversation
window under a message-count limit and a token budget.  Messages are langchain
`SystemMessage` / `HumanMessage` / `AIMessage` values; here a message is a role
tag plus its textual content.  The tiktoken backend used by `count_tokens` is an
external dependency; it is modelled as an oracle `String → Option Nat` stored in
the manager (`none` models the backend being unavailable or throwing, which in
the source is the `except` branch).

The embedding follows the source line by line:
Python `messages[-k:]` and `messages[:-k]` are `pySliceLast` / `pySliceDropLast`
(including the Python quirk that a slice bound of `-0` is `0`); the float
priority arithmetic of `get_message_priority` is modelled exactly over `ℚ`
(all concrete inputs used below keep every intermediate value representable
exactly in binary floating point, so the rational model and CPython agree on
them); Python stable `list.sort(key, reverse=True)` is `List.insertionSort`
with the reversed `≤` relation, which is the same stable descending sort.
-/

/-- Message roles: `SystemMessage` (the Directive of the spec),
`HumanMessage` (UserTurn) and `AIMessage` (AgentTurn). -/
inductive Role where
  | system : Role
  | human : Role
  | ai : Role
deriving DecidableEq, Repr

/-- A conversation message: role tag plus textual content. -/
structure Msg where
  role : Role
  content : String
deriving DecidableEq, Repr

/-- Python substring test `needle in hay` on character sequences. -/
def containsSeq (needle : List Char) : List Char → Bool
  | [] => needle.isEmpty
  | c :: t => needle.isPrefixOf (c :: t) || containsSeq needle t

/-- Python `needle in hay` on strings. -/
def strIncludes (hay needle : String) : Bool :=
  containsSeq needle.data hay.data

/-- Python `s.lower()`; identity on the CJK keywords used by the source. -/
def strLower (s : String) : String :=
  ⟨s.data.map Char.toLower⟩

/-- Python slice `ms[-k:]` (note `ms[-0:]` is the whole list). -/
def pySliceLast (ms : List Msg) (k : Int) : List Msg :=
  if k ≤ 0 then ms.drop (Int.toNat (-k)) else ms.drop (ms.length - Int.toNat k)

/-- Python slice `ms[:-k]` (note `ms[:-0]` is the empty list). -/
def pySliceDropLast (ms : List Msg) (k : Int) : List Msg :=
  if k ≤ 0 then ms.take (Int.toNat (-k)) else ms.take (ms.length - Int.toNat k)

/-- The manager: the two limits fixed at construction plus the tiktoken
backend `self.encoding` (external, modelled as an oracle). -/
structure MessageManager where
  max_messages : Int
  max_tokens : Int
  encoding : String → Option Nat

namespace MessageManager

/-- `MessageManager.__init__`: stores the limits and obtains the encoding.
The source performs no validation of the limits and raises no
configuration error; the `Except` result records that construction
always succeeds. -/
def init (encoding : String → Option Nat) (max_messages max_tokens : Int) :
    Except String MessageManager :=
  .ok { max_messages := max_messages, max_tokens := max_tokens, encoding := encoding }

/-- `count_tokens`: token count of one message via the backend, falling back to
`len(content) // 4` when the backend fails. -/
def count_tokens (M : MessageManager) (m : Msg) : Nat :=
  match M.encoding m.content with
  | some n => n
  | none => m.content.length / 4

/-- `count_total_tokens`: the accumulating loop over the list. -/
def count_total_tokens (M : MessageManager) (ms : List Msg) : Nat :=
  ms.foldl (fun total msg => total + M.count_tokens msg) 0

/-- The keyword list of `get_message_priority` (step 4 of the scorer). -/
def keywordsPriority : List String :=
  ["投资", "策略", "分析", "风险", "回测", "收益", "股票", "基金"]

/-- `get_message_priority`: role base score, recency bonus
`(index / total_count) * 30`, length bonus, `+3` per keyword, clamped at 100.
Python float arithmetic is modelled exactly over `ℚ`. -/
def get_message_priority (m : Msg) (index total_count : Nat) : ℚ :=
  let base : ℚ :=
    match m.role with
    | .system => 90
    | .ai => 30
    | .human => 20
  let position_score : ℚ := ((index : ℚ) / (total_count : ℚ)) * 30
  let content_length := m.content.length
  let length_score : ℚ := if content_length > 200 then 10 else if content_length > 100 then 5 else 0
  let content_lower := strLower m.content
  let keyword_count := (keywordsPriority.filter (fun kw => strIncludes content_lower kw)).length
  min (base + position_score + length_score + (keyword_count : ℚ) * 3) 100

/-- The keyword list of `_generate_summary` (7 entries, in this order). -/
def keywordsSummary : List String :=
  ["投资", "策略", "分析", "风险", "股票", "基金", "回测"]

/-- The local `all_content` of `_generate_summary`: contents joined by a space. -/
def allContentOf (ms : List Msg) : String :=
  String.intercalate " " (ms.map (·.content))

/-- The local `mentioned_topics` of `_generate_summary`: the fixed keyword list
filtered by presence in the joined text (hence in fixed list order). -/
def mentionedTopicsOf (ms : List Msg) : List String :=
  keywordsSummary.filter (fun kw => strIncludes (allContentOf ms) kw)

/-- Python `str(content)[:50] + "..."`. -/
def truncate50 (s : String) : String :=
  String.mk (s.data.take 50) ++ "..."

/-- The local `important_exchanges` loop: among `messages[0 .. len-2]`, the
first two human messages, truncated. -/
def importantExchanges (ms : List Msg) : List String :=
  (((ms.take (ms.length - 1)).filter (fun m => decide (m.role = .human))).map
    (fun m => truncate50 m.content)).take 2

/-- The first summary line: discarded user and AI message counts. -/
def summaryCounts (ms : List Msg) : String :=
  "包含" ++ toString (ms.filter (fun m => decide (m.role = .human))).length ++
    "个用户问题和" ++ toString (ms.filter (fun m => decide (m.role = .ai))).length ++ "个AI回复"

/-- `_generate_summary`: counts line, up to 3 mentioned topics, up to 2 recent
user excerpts, joined by a fixed separator. -/
def generate_summary (ms : List Msg) : String :=
  if ms = [] then "无历史对话"
  else
    let parts1 : List String := [summaryCounts ms]
    let parts2 : List String :=
      if mentionedTopicsOf ms ≠ [] then
        parts1 ++ ["主要讨论了：" ++ String.intercalate ", " ((mentionedTopicsOf ms).take 3)]
      else parts1
    let parts3 : List String :=
      if importantExchanges ms ≠ [] then
        parts2 ++ ["最近讨论：" ++ String.intercalate "; " (importantExchanges ms)]
      else parts2
    String.intercalate " | " parts3

/-- `compress_old_messages`: keep the last `keep_count` messages and prepend a
summary of the discarded ones (after the leading system message, if any). -/
def compress_old_messages (ms : List Msg) (keep_count : Int) : List Msg :=
  if (ms.length : Int) ≤ keep_count then ms
  else
    let recent := pySliceLast ms keep_count
    let old := pySliceDropLast ms keep_count
    if old = [] then recent
    else
      let summary : Msg := ⟨.system, "[历史对话摘要] " ++ generate_summary old⟩
      match recent with
      | first :: rest =>
        if first.role = .system then first :: summary :: rest else summary :: first :: rest
      | [] => [summary]

end MessageManager

/-- The tuples `(msg, priority, tokens, i)` built by `_compress_by_tokens`. -/
structure Scored where
  msg : Msg
  pri : ℚ
  tok : Nat
  idx : Nat
deriving DecidableEq

/-- The sort relation of `message_priorities.sort(key=priority, reverse=True)`:
descending priority.  Used with the stable `List.insertionSort`, which agrees
with Python stable sorting. -/
def rankLE (a b : Scored) : Prop := b.pri ≤ a.pri

instance : DecidableRel rankLE := fun a b => inferInstanceAs (Decidable (b.pri ≤ a.pri))

instance : IsTotal Scored rankLE := ⟨fun a b => le_total b.pri a.pri⟩

instance : IsTrans Scored rankLE := ⟨fun _ _ _ h1 h2 => le_trans h2 h1⟩

namespace MessageManager

/-- The `other_messages` of `_compress_by_tokens`: all non-system messages. -/
def othersOf (ms : List Msg) : List Msg :=
  ms.filter (fun m => decide (¬ m.role = .system))

/-- The `system_messages` of `_compress_by_tokens`. -/
def systemsOf (ms : List Msg) : List Msg :=
  ms.filter (fun m => decide (m.role = .system))

/-- The `message_priorities` list: one scored tuple per non-system message,
scored by its position among the non-system messages. -/
def scoredEntries (M : MessageManager) (others : List Msg) : List Scored :=
  others.enum.map (fun p =>
    ⟨p.2, get_message_priority p.2 p.1 others.length, M.count_tokens p.2, p.1⟩)

/-- `message_priorities` after the stable descending sort. -/
def rankedEntries (M : MessageManager) (ms : List Msg) : List Scored :=
  List.insertionSort rankLE (M.scoredEntries (othersOf ms))

/-- The greedy acceptance loop of `_compress_by_tokens`: accept a candidate
while the running total stays within `max_tokens`; the `else: break` of the
source stops the whole scan at the first candidate that does not fit. -/
def selectLoop (mt : Int) (cur : Nat) : List Scored → List Msg
  | [] => []
  | e :: rest =>
    if ((cur + e.tok : Nat) : Int) ≤ mt then e.msg :: selectLoop mt (cur + e.tok) rest
    else []

/-- The `selected_messages` value of `_compress_by_tokens` just before the
safety-floor check: all system messages, then the greedily accepted others. -/
def tokenSelected (M : MessageManager) (ms : List Msg) : List Msg :=
  systemsOf ms ++
    selectLoop M.max_tokens (((systemsOf ms).map M.count_tokens).sum) (M.rankedEntries ms)

/-- `_compress_by_tokens`: priority-based greedy selection, with a safety floor
that falls back to the last 6 messages when fewer than 6 were selected. -/
def compress_by_tokens (M : MessageManager) (ms : List Msg) : List Msg :=
  if ms = [] then ms
  else if (M.tokenSelected ms).length < 6 then
    compress_old_messages (pySliceLast ms 6) 6
  else M.tokenSelected ms

/-- The count-check stage of `optimize_messages` (step 1). -/
def countStage (M : MessageManager) (ms : List Msg) : List Msg :=
  if (ms.length : Int) > M.max_messages then compress_old_messages ms M.max_messages else ms

/-- `optimize_messages`: count check, then token check. -/
def optimize_messages (M : MessageManager) (ms : List Msg) : List Msg :=
  if ms = [] then ms
  else
    let ms1 := M.countStage ms
    if (M.count_total_tokens ms1 : Int) > M.max_tokens then M.compress_by_tokens ms1 else ms1

/-- `add_message`: append the new message and optimize. -/
def add_message (M : MessageManager) (ms : List Msg) (new_message : Msg) : List Msg :=
  M.optimize_messages (ms ++ [new_message])

/-- `get_stats` total-token field (the only stats field the claims mention). -/
def statsTotalTokens (M : MessageManager) (ms : List Msg) : Nat :=
  M.count_total_tokens ms

/-- Scan of a text that records each keyword of the scorer set at its first
occurrence position, left to right.  This is the topic order the specification
describes for summaries; it is compared against what the code computes. -/
def occScan : List Char → List String → List String
  | [], acc => acc
  | c :: t, acc =>
    occScan t (acc ++ keywordsPriority.filter
      (fun kw => kw.data.isPrefixOf (c :: t) && !(acc.contains kw)))

/-- Topic list as the specification states it: keywords of the section 4.2
scorer set that occur in the text, ordered by first occurrence, capped at 3. -/
def specTopicsByFirstOccurrence (text : String) : List String :=
  (occScan text.data []).take 3

/-- Ceiling fallback as the specification states it for the token estimator. -/
def specCeilFallback (s : String) : Nat :=
  (s.length + 3) / 4

end MessageManager

/-! Concrete fixtures used by the counterexamples and witnesses below.
`encNone` models the tokenizer backend being unavailable, so every token count
goes through the `len(content) // 4` fallback. -/

/-- A backend that always fails: every estimate uses the fallback. -/
def encNone : String → Option Nat := fun _ => none

/-- A manager with roomy limits (used where no compression should occur). -/
def mgrRoomy : MessageManager := ⟨10, 1000, encNone⟩

/-- A manager with message limit 1 and a huge token budget. -/
def mgrCount1 : MessageManager := ⟨1, 1000000, encNone⟩

/-- A manager with a tiny token budget of 5. -/
def mgrTok5 : MessageManager := ⟨100, 5, encNone⟩

/-- A manager with token budget 10. -/
def mgrTok10 : MessageManager := ⟨100, 10, encNone⟩

/-- A manager with token budget 50. -/
def mgrTok50 : MessageManager := ⟨100, 50, encNone⟩

/-- Shorthand for a system message. -/
def sMsg (s : String) : Msg := ⟨.system, s⟩

/-- A 40-character content (10 tokens under the fallback). -/
def content40 : String := String.mk (List.replicate 40 'a')

/-- A 100-character content (25 tokens, no length bonus since not above 100). -/
def content100 : String := String.mk (List.replicate 100 'e')

/-- A 400-character content (100 tokens, +10 length bonus). -/
def content400 : String := String.mk (List.replicate 400 'x')

/-- C2 fixture: seven system messages of 10 tokens each. -/
def winSevenSystems : List Msg := List.replicate 7 ⟨.system, content40⟩

/-- C3 fixture: a leading directive followed by six expensive user turns. -/
def winFloorDrop : List Msg := ⟨.system, content40⟩ :: List.replicate 6 ⟨.human, content40⟩

/-- C4 fixture messages: `msgA4` (AgentTurn, early, cheap), `msgE4` (UserTurn,
expensive, lowest rank), `msgB4` (AgentTurn, late, cheap), `msgF4` (UserTurn,
latest, cheap).  Every priority is exact in binary floating point
(30, 27.5, 45, 42.5), so the rational model agrees with CPython. -/
def msgA4 : Msg := ⟨.ai, "aaaa"⟩

/-- See `msgA4`. -/
def msgE4 : Msg := ⟨.human, content100⟩

/-- See `msgA4`. -/
def msgB4 : Msg := ⟨.ai, "bbbb"⟩

/-- See `msgA4`. -/
def msgF4 : Msg := ⟨.human, "ffff"⟩

/-- C4 fixture window: five directives, then the four turns of `msgA4` etc. -/
def winOrder : List Msg :=
  [sMsg "s1", sMsg "s2", sMsg "s3", sMsg "s4", sMsg "s5", msgA4, msgE4, msgB4, msgF4]

/-- C5 fixture: a cheap early user turn (fits the budget). -/
def msgY5 : Msg := ⟨.human, "yyyy"⟩

/-- C5 fixture: an expensive late agent turn ranked first (100 tokens). -/
def msgX5 : Msg := ⟨.ai, content400⟩

/-- C5 fixture window: six directives, then `msgY5` and `msgX5`. -/
def winBreak : List Msg :=
  [sMsg "s1", sMsg "s2", sMsg "s3", sMsg "s4", sMsg "s5", sMsg "s6", msgY5, msgX5]

/-- Scenario 2 manager: limits 500 messages, one million tokens. -/
def scenarioManager : MessageManager := ⟨500, 1000000, encNone⟩

/-- Scenario 2 window: one directive then 600 alternating user and agent
turns. -/
def scenarioW : List Msg :=
  ⟨.system, "d"⟩ ::
    (List.range 600).map (fun i => if i % 2 = 0 then ⟨Role.human, "u"⟩ else ⟨Role.ai, "a"⟩)

/-- The summary message the code produces on Scenario 2. -/
def scenarioSummary : Msg :=
  ⟨.system, "[历史对话摘要] 包含50个用户问题和50个AI回复 | 最近讨论：u...; u..."⟩

/-- C9 fixture: one discarded user turn whose text mentions backtest first,
then investment, then return. -/
def winTopics : List Msg := [⟨.human, "回测 投资 收益"⟩]

/-! Helper lemmas about the embedding. -/

namespace MessageManager

theorem count_total_eq_sum (M : MessageManager) (ms : List Msg) :
    M.count_total_tokens ms = (ms.map M.count_tokens).sum := by
  have h : ∀ (l : List Msg) (n : Nat),
      l.foldl (fun total msg => total + M.count_tokens msg) n = n + (l.map M.count_tokens).sum := by
    intro l
    induction l with
    | nil => intro n; simp
    | cons a t ih =>
      intro n
      simp only [List.foldl_cons, List.map_cons, List.sum_cons, ih]
      omega
  simpa using h ms 0

theorem count_total_append (M : MessageManager) (a b : List Msg) :
    M.count_total_tokens (a ++ b) = M.count_total_tokens a + M.count_total_tokens b := by
  simp [count_total_eq_sum]

theorem selectLoop_eq_take (mt : Int) :
    ∀ (l : List Scored) (cur : Nat), ∃ k, selectLoop mt cur l = (l.take k).map Scored.msg := by
  intro l
  induction l with
  | nil => exact fun _ => ⟨0, rfl⟩
  | cons e rest ih =>
    intro cur
    by_cases h : ((cur + e.tok : Nat) : Int) ≤ mt
    · obtain ⟨k, hk⟩ := ih (cur + e.tok)
      refine ⟨k + 1, ?_⟩
      simp only [selectLoop]
      rw [if_pos h, hk]
      rfl
    · refine ⟨0, ?_⟩
      simp only [selectLoop]
      rw [if_neg h]
      rfl

theorem selectLoop_tokens_le (M : MessageManager) (mt : Int) :
    ∀ (l : List Scored) (cur : Nat),
      (∀ e ∈ l, e.tok = M.count_tokens e.msg) → (cur : Int) ≤ mt →
      ((cur + ((selectLoop mt cur l).map M.count_tokens).sum : Nat) : Int) ≤ mt := by
  intro l
  induction l with
  | nil => intro cur _ hc; simpa using hc
  | cons e rest ih =>
    intro cur htok hc
    by_cases h : ((cur + e.tok : Nat) : Int) ≤ mt
    · have h1 := ih (cur + e.tok) (fun x hx => htok x (List.mem_cons_of_mem _ hx)) h
      have he : e.tok = M.count_tokens e.msg := htok e (List.mem_cons_self _ _)
      simp only [selectLoop, if_pos h, List.map_cons, List.sum_cons]
      rw [← he]
      omega
    · simp only [selectLoop, if_neg h, List.map_nil, List.sum_nil]
      simpa using hc

theorem selectLoop_of_over (mt : Int) (cur : Nat) (l : List Scored)
    (h : ¬ (cur : Int) ≤ mt) : selectLoop mt cur l = [] := by
  cases l with
  | nil => rfl
  | cons e rest =>
    have hng : ¬ ((cur + e.tok : Nat) : Int) ≤ mt := by omega
    simp only [selectLoop]
    rw [if_neg hng]

theorem rankedEntries_tok (M : MessageManager) (ms : List Msg) :
    ∀ e ∈ M.rankedEntries ms, e.tok = M.count_tokens e.msg := by
  intro e he
  rw [rankedEntries, List.mem_insertionSort] at he
  rcases List.mem_map.mp he with ⟨p, _, rfl⟩
  rfl

theorem compress_old_of_le (ms : List Msg) (k : Int) (h : (ms.length : Int) ≤ k) :
    compress_old_messages ms k = ms := by
  rw [compress_old_messages, if_pos h]

theorem pySliceLast_length_of_pos (ms : List Msg) (k : Int) (hk : 0 < k) :
    (pySliceLast ms k).length = ms.length - (ms.length - k.toNat) := by
  rw [pySliceLast, if_neg (by omega)]
  simp

theorem compress_old_length_le (ms : List Msg) (k : Int) (hk : 1 ≤ k) :
    (compress_old_messages ms k).length ≤ k.toNat + 1 := by
  have hsl := pySliceLast_length_of_pos ms k (by omega)
  rw [compress_old_messages]
  split
  · next h => omega
  · next h =>
    simp only []
    split
    · rw [hsl]; omega
    · split
      · next first rest heq =>
        rw [heq] at hsl
        simp only [List.length_cons] at hsl
        split
        · simp only [List.length_cons]; omega
        · simp only [List.length_cons]; omega
      · next heq => simp

theorem countStage_length_le (M : MessageManager) (ms : List Msg)
    (hk : 1 ≤ M.max_messages) : (M.countStage ms).length ≤ M.max_messages.toNat + 1 := by
  rw [countStage]
  split
  · exact compress_old_length_le ms M.max_messages hk
  · next h => omega

theorem countStage_nil (M : MessageManager) : M.countStage [] = [] := by
  rw [countStage]
  split
  · rw [compress_old_messages]
    split
    · rfl
    · simp only []
      have hold : pySliceDropLast ([] : List Msg) M.max_messages = [] := by
        rw [pySliceDropLast]; split <;> simp
      rw [if_pos hold, pySliceLast]
      split <;> simp
  · rfl

theorem countStage_head_system (M : MessageManager) (ms : List Msg)
    (hk : 1 ≤ M.max_messages) (hh : ms.head?.map Msg.role = some Role.system) :
    (M.countStage ms).head?.map Msg.role = some Role.system := by
  rw [countStage]
  split
  · next hgt =>
    have hms : ms ≠ [] := by
      intro h
      subst h
      simp only [List.length_nil, Nat.cast_zero] at hgt
      omega
    have hlen0 : ms.length ≠ 0 := fun h => hms (List.length_eq_zero.mp h)
    rw [compress_old_messages, if_neg (by omega)]
    simp only []
    have hold : pySliceDropLast ms M.max_messages ≠ [] := by
      rw [pySliceDropLast, if_neg (by omega)]
      intro h
      have hl := congrArg List.length h
      simp only [List.length_take, List.length_nil] at hl
      omega
    rw [if_neg hold]
    split
    · next first rest heq =>
      split
      · next hsys => simpa using hsys
      · simp
    · simp
  · exact hh

theorem tokenSelected_head_system (M : MessageManager) (ms : List Msg)
    (hh : ms.head?.map Msg.role = some Role.system) :
    (M.tokenSelected ms).head?.map Msg.role = some Role.system := by
  cases ms with
  | nil => simp at hh
  | cons h t =>
    have hr : h.role = Role.system := by simpa using hh
    have hsys : MessageManager.systemsOf (h :: t) =
        h :: t.filter (fun m => decide (m.role = Role.system)) := by
      rw [systemsOf, List.filter_cons]
      simp [hr]
    rw [tokenSelected, hsys]
    simp [hr]

end MessageManager

/-! Theorems settling the claims. -/

/-- Claim C6 (confirmed): if the window respects both limits, `optimize`
returns it exactly unchanged, and the empty window is returned unchanged
unconditionally. -/
theorem claim_C6 :
    (∀ (M : MessageManager) (ms : List Msg),
        (ms.length : Int) ≤ M.max_messages →
        (M.count_total_tokens ms : Int) ≤ M.max_tokens →
        M.optimize_messages ms = ms)
    ∧ ∀ M : MessageManager, M.optimize_messages [] = [] := by
  constructor
  · intro M ms h1 h2
    by_cases he : ms = []
    · simp [MessageManager.optimize_messages, he]
    · have hc : M.countStage ms = ms := by
        rw [MessageManager.countStage, if_neg (not_lt.mpr h1)]
      rw [MessageManager.optimize_messages, if_neg he]
      simp only [hc, if_neg (not_lt.mpr h2)]
  · intro M; rfl

/-- Witness for claim C6 at a concrete two-message window inside both
limits. -/
theorem claim_C6_witness :
    mgrRoomy.optimize_messages [⟨.system, "s"⟩, ⟨.human, "u"⟩] = [⟨.system, "s"⟩, ⟨.human, "u"⟩] :=
  claim_C6.1 mgrRoomy [⟨.system, "s"⟩, ⟨.human, "u"⟩] (by decide) (by decide)

/-- Claim C10 (confirmed): `add_message` is exactly `optimize_messages` of the
input with the new message appended.  The source builds a fresh list
(`messages + [new_message]`), so the argument list is not mutated, which the
purely functional embedding reflects. -/
theorem claim_C10 (M : MessageManager) (ms : List Msg) (m : Msg) :
    M.add_message ms m = M.optimize_messages (ms ++ [m]) := rfl

/-- Claim C7 (counterexample): with the tokenizer backend unavailable, a
3-character content is estimated at `3 // 4 = 0` tokens, while the claimed
ceiling fallback gives 1. -/
theorem claim_C7_counterexample :
    mgrRoomy.count_tokens ⟨.human, "abc"⟩ = 0 ∧
      MessageManager.specCeilFallback "abc" = 1 ∧ (0 : Nat) ≠ 1 := by
  decide

/-- Claim C7 (amended): the estimator never propagates a backend failure, but
the fallback is the floor `len(content) // 4`, not the ceiling; the total is
the sum of per-message estimates and is 0 on the empty sequence. -/
theorem claim_C7_amended :
    (∀ (M : MessageManager) (m : Msg), M.encoding m.content = none →
        M.count_tokens m = m.content.length / 4)
    ∧ (∀ M : MessageManager, M.count_total_tokens [] = 0)
    ∧ ∀ (M : MessageManager) (ms : List Msg),
        M.count_total_tokens ms = (ms.map M.count_tokens).sum := by
  refine ⟨?_, ?_, ?_⟩
  · intro M m h
    rw [MessageManager.count_tokens, h]
  · intro M; rfl
  · intro M ms; exact M.count_total_eq_sum ms

/-- Witness for claim C7 at a concrete message with a failing backend. -/
theorem claim_C7_witness :
    mgrRoomy.count_tokens ⟨.human, "abcde"⟩ = "abcde".length / 4 :=
  claim_C7_amended.1 mgrRoomy ⟨.human, "abcde"⟩ rfl

/-- Claim C8 (counterexample): constructing a manager with
`maxMessages = 0 <= 0` succeeds (no configuration error is raised), refuting
fail-fast validation. -/
theorem claim_C8_counterexample :
    ((0 : Int) ≤ 0) ∧ MessageManager.init encNone 0 1 = .ok ⟨0, 1, encNone⟩ :=
  ⟨le_refl 0, rfl⟩

/-- Claim C8 (amended): the constructor performs no validation of the limits;
it always succeeds and stores the supplied values unchanged, so invalid limits
surface (if at all) only in call-time behavior. -/
theorem claim_C8_amended (e : String → Option Nat) (mm mt : Int) :
    MessageManager.init e mm mt = .ok ⟨mm, mt, e⟩ := rfl

/-- Claim C1 (counterexample): with `maxMessages = 1 >= 1`, a 2-message window
and a huge token budget, the output of `optimize` (which here is exactly the
count-check output) has 2 elements, exceeding `maxMessages`. -/
theorem claim_C1_counterexample :
    (1 : Int) ≤ mgrCount1.max_messages ∧
      (mgrCount1.optimize_messages [⟨.human, "a"⟩, ⟨.human, "b"⟩]).length = 2 ∧
      ¬ ((2 : Int) ≤ mgrCount1.max_messages) := by
  decide

set_option maxRecDepth 1000000 in
/-- Claim C1 (amended): the count-check stage bounds the window length by
`maxMessages + 1` (the kept messages plus the prepended summary), not by
`maxMessages`; on Scenario 2 the output has 501 elements, namely the summary
message followed by the last 500 alternating messages — the original directive
is discarded into the summary, whose content mentions the discarded counts. -/
theorem claim_C1_amended :
    (∀ (M : MessageManager) (ms : List Msg), 1 ≤ M.max_messages →
        (M.count_total_tokens (M.countStage ms) : Int) ≤ M.max_tokens →
        (M.optimize_messages ms).length ≤ M.max_messages.toNat + 1)
    ∧ (scenarioManager.optimize_messages scenarioW = scenarioSummary :: scenarioW.drop 101
        ∧ (scenarioManager.optimize_messages scenarioW).length = 501) := by
  refine ⟨?_, by decide, by decide⟩
  intro M ms hk hno
  by_cases he : ms = []
  · subst he
    have h0 : M.optimize_messages [] = [] := rfl
    rw [h0]
    simp
  · rw [MessageManager.optimize_messages, if_neg he]
    simp only []
    rw [if_neg (not_lt.mpr hno)]
    exact M.countStage_length_le ms hk

/-- Witness for the general bound of claim C1 amended, at the window of the
counterexample. -/
theorem claim_C1_witness :
    (mgrCount1.optimize_messages [⟨.human, "a"⟩, ⟨.human, "b"⟩]).length ≤
      mgrCount1.max_messages.toNat + 1 :=
  claim_C1_amended.1 mgrCount1 [⟨.human, "a"⟩, ⟨.human, "b"⟩] (by decide) (by decide)

/-- Claim C2 (counterexample): seven directive messages of 10 tokens each with
a budget of 5: `optimize` keeps all seven (directives are retained
unconditionally), so the total cost 70 exceeds the budget while the result has
7, not exactly 6, elements. -/
theorem claim_C2_counterexample :
    mgrTok5.optimize_messages winSevenSystems = winSevenSystems ∧
      ¬ ((mgrTok5.count_total_tokens (mgrTok5.optimize_messages winSevenSystems) : Int) ≤
          mgrTok5.max_tokens) ∧
      (mgrTok5.optimize_messages winSevenSystems).length = 7 := by
  decide

/-- Claim C2 (amended): the result of `optimize` either fits the token budget,
or is exactly the directive messages of the pre-token-check window (directives
are kept unconditionally and may alone exceed the budget), or the safety floor
fired — the selection kept fewer than 6 — and the result is the last
`min(6, n)` messages of the pre-token-check window (run through count
compression with `maxMessages = 6`, which leaves them unchanged), so it need
not have exactly 6 elements. -/
theorem claim_C2_amended (M : MessageManager) (ms : List Msg) :
    ((M.count_total_tokens (M.optimize_messages ms) : Int) ≤ M.max_tokens)
    ∨ M.optimize_messages ms = MessageManager.systemsOf (M.countStage ms)
    ∨ ((M.tokenSelected (M.countStage ms)).length < 6
        ∧ M.optimize_messages ms = pySliceLast (M.countStage ms) 6
        ∧ (M.optimize_messages ms).length = min 6 (M.countStage ms).length) := by
  by_cases he : ms = []
  · subst he
    right; left
    have h0 : M.optimize_messages [] = [] := rfl
    rw [h0, M.countStage_nil]
    rfl
  · rw [MessageManager.optimize_messages, if_neg he]
    simp only []
    by_cases hg : (M.count_total_tokens (M.countStage ms) : Int) > M.max_tokens
    · rw [if_pos hg, MessageManager.compress_by_tokens]
      by_cases h0 : M.countStage ms = []
      · rw [if_pos h0]
        right; left
        rw [h0]
        rfl
      · rw [if_neg h0]
        by_cases hf : (M.tokenSelected (M.countStage ms)).length < 6
        · rw [if_pos hf]
          right; right
          have hlen : (pySliceLast (M.countStage ms) 6).length =
              (M.countStage ms).length - ((M.countStage ms).length - 6) :=
            MessageManager.pySliceLast_length_of_pos _ 6 (by omega)
          have hid : MessageManager.compress_old_messages (pySliceLast (M.countStage ms) 6) 6 =
              pySliceLast (M.countStage ms) 6 :=
            MessageManager.compress_old_of_le _ 6 (by rw [hlen]; omega)
          refine ⟨hf, hid, ?_⟩
          rw [hid, hlen]
          omega
        · rw [if_neg hf, MessageManager.tokenSelected]
          by_cases hcur :
              ((((MessageManager.systemsOf (M.countStage ms)).map M.count_tokens).sum : Nat) : Int) ≤
                M.max_tokens
          · left
            have hb := M.selectLoop_tokens_le M.max_tokens (M.rankedEntries (M.countStage ms))
              (((MessageManager.systemsOf (M.countStage ms)).map M.count_tokens).sum)
              (M.rankedEntries_tok (M.countStage ms)) hcur
            rw [M.count_total_append, M.count_total_eq_sum, M.count_total_eq_sum]
            exact_mod_cast hb
          · right; left
            rw [MessageManager.selectLoop_of_over _ _ _ hcur, List.append_nil]
    · rw [if_neg hg]
      left
      exact not_lt.mp hg

attribute [local semireducible] Rat.mul Rat.inv Rat.add Rat.sub

/-- Claim C3 (counterexample): two failures of directive-first.  (a) A window
that contains a directive which is not in first position and respects both
limits is returned unchanged, so the first output element is a user turn.
(b) A window whose first element is a directive loses it entirely when the
token safety floor fires: the floor returns the last 6 messages, none of which
is a directive. -/
theorem claim_C3_counterexample :
    ((⟨.system, "s"⟩ : Msg) ∈ ([⟨.human, "x"⟩, ⟨.system, "s"⟩] : List Msg)
      ∧ (mgrRoomy.optimize_messages [⟨.human, "x"⟩, ⟨.system, "s"⟩]).head?.map Msg.role =
          some Role.human)
    ∧ (winFloorDrop.head?.map Msg.role = some Role.system
      ∧ (mgrTok5.optimize_messages winFloorDrop).head?.map Msg.role = some Role.human) := by
  decide

/-- Claim C3 (amended): if the FIRST message of the window is a directive
(not merely some message) and the token-stage safety floor does not fire,
then the first element of the optimized window has directive role.  In the
untouched no-op path the window is returned as is, so a directive that is not
first stays not first; and the safety floor can drop every directive. -/
theorem claim_C3_amended (M : MessageManager) (ms : List Msg)
    (hk : 1 ≤ M.max_messages)
    (hh : ms.head?.map Msg.role = some Role.system)
    (hfl : ¬ ((M.count_total_tokens (M.countStage ms) : Int) > M.max_tokens
        ∧ (M.tokenSelected (M.countStage ms)).length < 6)) :
    (M.optimize_messages ms).head?.map Msg.role = some Role.system := by
  have he : ms ≠ [] := by
    intro h
    subst h
    simp at hh
  have hcs := M.countStage_head_system ms hk hh
  rw [MessageManager.optimize_messages, if_neg he]
  simp only []
  by_cases hg : (M.count_total_tokens (M.countStage ms) : Int) > M.max_tokens
  · rw [if_pos hg, MessageManager.compress_by_tokens]
    have h0 : ¬ M.countStage ms = [] := by
      intro h
      rw [h] at hcs
      simp at hcs
    rw [if_neg h0]
    have hnf : ¬ (M.tokenSelected (M.countStage ms)).length < 6 := fun h => hfl ⟨hg, h⟩
    rw [if_neg hnf]
    exact M.tokenSelected_head_system _ hcs
  · rw [if_neg hg]
    exact hcs

/-- Witness for claim C3 amended at a directive-first window inside both
limits. -/
theorem claim_C3_witness :
    (mgrRoomy.optimize_messages [⟨.system, "s"⟩, ⟨.human, "u"⟩]).head?.map Msg.role =
      some Role.system :=
  claim_C3_amended mgrRoomy [⟨.system, "s"⟩, ⟨.human, "u"⟩] (by decide) (by decide) (by decide)

set_option maxRecDepth 100000 in
/-- Claim C4 (counterexample): in `winOrder`, the agent turn `msgA4` precedes
`msgB4`, both are retained by `optimize`, yet `msgB4` comes out before
`msgA4`: accepted messages keep priority order and are not re-sorted back to
sequence order. -/
theorem claim_C4_counterexample :
    mgrTok10.optimize_messages winOrder =
        [sMsg "s1", sMsg "s2", sMsg "s3", sMsg "s4", sMsg "s5", msgB4, msgF4, msgA4]
      ∧ winOrder[5]? = some msgA4 ∧ winOrder[7]? = some msgB4
      ∧ (mgrTok10.optimize_messages winOrder)[5]? = some msgB4
      ∧ (mgrTok10.optimize_messages winOrder)[7]? = some msgA4
      ∧ msgA4 ≠ msgB4 := by
  decide

/-- Claim C4 (amended): after token-based selection the retained non-directive
messages follow the directives in descending-priority order — the ranked list
is sorted by the descending-priority relation and the selection output is the
directives followed by a prefix of the ranked list — with no re-sort back to
original sequence order. -/
theorem claim_C4_amended (M : MessageManager) (ms : List Msg) :
    List.Sorted rankLE (M.rankedEntries ms)
    ∧ ∃ k, M.tokenSelected ms =
        MessageManager.systemsOf ms ++ ((M.rankedEntries ms).take k).map Scored.msg := by
  constructor
  · exact List.sorted_insertionSort rankLE _
  · obtain ⟨k, hk⟩ :=
      MessageManager.selectLoop_eq_take M.max_tokens (M.rankedEntries ms)
        (((MessageManager.systemsOf ms).map M.count_tokens).sum)
    exact ⟨k, by rw [MessageManager.tokenSelected, hk]⟩

set_option maxRecDepth 100000 in
/-- Claim C5 (counterexample): in `winBreak` the expensive top-ranked `msgX5`
is rejected and the scan stops there: the cheap `msgY5` (which would fit the
remaining budget) is dropped as well, leaving only the six directives. -/
theorem claim_C5_counterexample :
    mgrTok50.optimize_messages winBreak =
        [sMsg "s1", sMsg "s2", sMsg "s3", sMsg "s4", sMsg "s5", sMsg "s6"]
      ∧ msgY5 ∈ winBreak ∧ msgY5 ∉ mgrTok50.optimize_messages winBreak
      ∧ ((MessageManager.systemsOf winBreak).map mgrTok50.count_tokens).sum +
          mgrTok50.count_tokens msgY5 ≤ 50 := by
  decide

/-- Claim C5 (amended): the greedy scan stops at the first ranked candidate
whose cost would overflow the budget; everything after it in ranked order is
dropped — the result does not depend on the remaining candidates at all, even
on cheaper ones that would fit. -/
theorem claim_C5_amended (mt : Int) (cur : Nat) (pre : List Scored) (e : Scored)
    (rest : List Scored)
    (hpre : MessageManager.selectLoop mt cur pre = pre.map Scored.msg)
    (hrej : ¬ ((cur + (pre.map Scored.tok).sum + e.tok : Nat) : Int) ≤ mt) :
    MessageManager.selectLoop mt cur (pre ++ e :: rest) = pre.map Scored.msg := by
  induction pre generalizing cur with
  | nil =>
    simp only [List.map_nil, List.sum_nil, Nat.add_zero] at hrej
    simp only [List.nil_append, List.map_nil, MessageManager.selectLoop]
    rw [if_neg hrej]
  | cons p ps ih =>
    by_cases hc : ((cur + p.tok : Nat) : Int) ≤ mt
    · have hps : MessageManager.selectLoop mt (cur + p.tok) ps = ps.map Scored.msg := by
        have h2 := hpre
        simp only [MessageManager.selectLoop, List.map_cons] at h2
        rw [if_pos hc] at h2
        injection h2
      have hrej2 : ¬ (((cur + p.tok) + (ps.map Scored.tok).sum + e.tok : Nat) : Int) ≤ mt := by
        simp only [List.map_cons, List.sum_cons] at hrej
        omega
      have h3 := ih (cur + p.tok) hps hrej2
      simp only [List.cons_append, MessageManager.selectLoop, List.map_cons, List.append_eq]
      rw [if_pos hc, h3]
    · exfalso
      simp only [MessageManager.selectLoop, List.map_cons] at hpre
      rw [if_neg hc] at hpre
      simp at hpre

/-- Witness for claim C5 amended: one accepted candidate, one rejected, one
fitting candidate behind it that is dropped anyway. -/
theorem claim_C5_witness :
    MessageManager.selectLoop 10 0
        ([⟨⟨.human, "hhhh"⟩, 20, 1, 0⟩] ++
          (⟨⟨.ai, "ee"⟩, 30, 100, 1⟩ : Scored) :: [⟨⟨.human, "cc"⟩, 10, 1, 2⟩]) =
      [⟨.human, "hhhh"⟩] :=
  claim_C5_amended 10 0 [⟨⟨.human, "hhhh"⟩, 20, 1, 0⟩] ⟨⟨.ai, "ee"⟩, 30, 100, 1⟩
    [⟨⟨.human, "cc"⟩, 10, 1, 2⟩] (by decide) (by decide)

/-- Claim C9 (counterexample): with discarded text mentioning backtest, then
investment, then return, the claimed first-occurrence order over the section
4.2 scorer set is [backtest, investment, return], but the summary lists
[investment, backtest]: the code filters a different 7-keyword list (omitting
the return keyword) in fixed list order, not first-occurrence order. -/
theorem claim_C9_counterexample :
    MessageManager.mentionedTopicsOf winTopics = ["投资", "回测"]
      ∧ MessageManager.specTopicsByFirstOccurrence (MessageManager.allContentOf winTopics) =
          ["回测", "投资", "收益"]
      ∧ MessageManager.generate_summary winTopics =
          "包含1个用户问题和0个AI回复 | 主要讨论了：投资, 回测"
      ∧ (["投资", "回测"] : List String) ≠ ["回测", "投资", "收益"] := by
  decide

/-- Claim C9 (amended): for a non-empty discarded sequence, the topics listed
in the summary are the keywords of the fixed 7-element summary list that occur
anywhere in the space-joined discarded text, kept in fixed list order (a
sublist of that list), capped at 3; the summary is a deterministic function of
the input sequence (it is a pure function of `ms`). -/
theorem claim_C9_amended (ms : List Msg) (hne : ms ≠ []) :
    List.Sublist (MessageManager.mentionedTopicsOf ms) MessageManager.keywordsSummary
    ∧ (∀ kw, kw ∈ MessageManager.mentionedTopicsOf ms ↔
        kw ∈ MessageManager.keywordsSummary ∧
          strIncludes (MessageManager.allContentOf ms) kw = true)
    ∧ MessageManager.generate_summary ms =
        String.intercalate " | " ([MessageManager.summaryCounts ms]
          ++ (if MessageManager.mentionedTopicsOf ms ≠ [] then
                ["主要讨论了：" ++
                  String.intercalate ", " ((MessageManager.mentionedTopicsOf ms).take 3)]
              else [])
          ++ (if MessageManager.importantExchanges ms ≠ [] then
                ["最近讨论：" ++ String.intercalate "; " (MessageManager.importantExchanges ms)]
              else [])) := by
  refine ⟨List.filter_sublist _, fun kw => ?_, ?_⟩
  · rw [MessageManager.mentionedTopicsOf, List.mem_filter]
  · rw [MessageManager.generate_summary, if_neg hne]
    simp only []
    split
    · split
      · simp [List.append_assoc]
      · simp [List.append_assoc]
    · split
      · simp [List.append_assoc]
      · simp [List.append_assoc]

/-- Witness for claim C9 amended at the topics fixture. -/
theorem claim_C9_witness :
    List.Sublist (MessageManager.mentionedTopicsOf winTopics) MessageManager.keywordsSummary :=
  (claim_C9_amended winTopics (by decide)).1
